import Mathlib

/-!
Verification of the EDL (Edit Decision List) builder of the `token` repository,
`video/scripts/generate_edl.py`.  The builder `build_edl` is a pure function from
a list of beat events and a raw-footage duration to a timeline description.

Modelling choices:
* Python floats are modelled as exact rationals (`ℚ`).  The Python `round(x, 3)`
  (round-half-to-even to 3 decimal places) is modelled exactly on rationals by
  `round3` below.
* Python dicts used only through `get`/`in` are modelled as functions to `Option`.
* The loop `for i in range(len(scene_times) - 1)` over consecutive index pairs is
  modelled as structural recursion over `scene_times.zip scene_times.tail`.
-/

namespace TokenEDL

/-- A beat record `{"label": ..., "t": ...}` from `beats.jsonl`. -/
structure Beat where
  label : String
  t : ℚ
deriving DecidableEq

/-- The `motion` sub-object of a clip segment. -/
structure Motion where
  scaleFrom : ℚ
  scaleTo : ℚ
deriving DecidableEq

/-- The discriminated part of a segment dict: `kind == "card"` carries `text` and
optionally `subtext`; `kind == "clip"` carries `label`, `in`, `out`, `motion`. -/
inductive SegKind where
  | card (text : String) (subtext : Option String)
  | clip (label : String) (inP outP : ℚ) (motion : Motion)
deriving DecidableEq

/-- A segment dict.  `start`/`stop` model the `"start"`/`"end"` keys
(`end` is a Lean keyword). -/
structure Segment where
  kind : SegKind
  start : ℚ
  stop : ℚ
deriving DecidableEq

/-- A transition dict.  `at_` models the `"at"` key (`at` is a Lean keyword). -/
structure Transition where
  type : String
  at_ : ℚ
  dur : ℚ
deriving DecidableEq

/-- The root EDL document built by `build_edl`. -/
structure EDL where
  fps : ℕ
  sizeW : ℕ
  sizeH : ℕ
  durationSec : ℚ
  inputsVideo : String
  segments : List Segment
  transitions : List Transition
deriving DecidableEq

-- --- Configuration constants of generate_edl.py ---

def FPS : ℕ := 30
def INTRO_DURATION : ℚ := 12/10
def INTERSTITIAL_DURATION : ℚ := 7/10
def OUTRO_DURATION : ℚ := 15/10
def FADE_DURATION : ℚ := 2/10
/-- The local constant `max_clip = 5.0` from the loop body of `build_edl`. -/
def MAX_CLIP : ℚ := 5

/-- The dict lookup `BEAT_LABELS.get(label)`: beat_label → display text.  Keys mapped to
`None` in the source and absent keys both yield `none` through `dict.get`. -/
def BEAT_LABELS (label : String) : Option String :=
  if label = "multicursor_start" then some "multi-cursor"
  else if label = "split_view" then some "split view"
  else if label = "csv_view" then some "csv editor"
  else if label = "search" then some "search"
  else if label = "outline" then some "outline"
  else if label = "workspace" then some "workspace"
  else if label = "command_palette" then some "command palette"
  else none

/-- The configured ordered list `SCENE_BEATS` of scene-boundary labels. -/
def SCENE_BEATS : List String :=
  ["open", "multicursor_start", "split_view", "csv_view", "search", "outline",
   "command_palette", "end"]

-- --- Rounding ---

/-- Round a rational to an integer with round-half-to-even tie-breaking, as
the Python built-in `round` does (on exact values): round to the nearest integer,
ties going to the even neighbour. -/
def roundHalfEven (x : ℚ) : ℤ :=
  if x - ⌊x⌋ < 1/2 then ⌊x⌋
  else if 1/2 < x - ⌊x⌋ then ⌊x⌋ + 1
  else if ⌊x⌋ % 2 = 0 then ⌊x⌋ else ⌊x⌋ + 1

/-- The Python `round(x, 3)` on exact rational values. -/
def round3 (x : ℚ) : ℚ := (roundHalfEven (x * 1000) : ℚ) / 1000

-- --- The builder ---

/-- The `beat_map` dict built by the first loop of `build_edl`: index beats by
label, last occurrence winning on duplicates. -/
def beatMap (beats : List Beat) : String → Option ℚ :=
  beats.foldl (fun m b => fun l => if l = b.label then some b.t else m l) (fun _ => none)

/-- The list `scene_times`: the configured boundary labels present in `beat_map`, in
configured order, paired with their timestamps. -/
def sceneTimes (beats : List Beat) : List (String × ℚ) :=
  SCENE_BEATS.filterMap (fun label => (beatMap beats label).map (fun t => (label, t)))

/-- The consecutive pairs `(scene_times[i], scene_times[i+1])` the loop
`for i in range(len(scene_times) - 1)` iterates over. -/
def scenePairs (beats : List Beat) : List ((String × ℚ) × (String × ℚ)) :=
  (sceneTimes beats).zip (sceneTimes beats).tail

/-- The interstitial-card part of one loop iteration: when `BEAT_LABELS.get(label)`
is truthy (a non-empty string), emit a card and a fade and advance the cursor
by `INTERSTITIAL_DURATION`; otherwise emit nothing. -/
def interstitialPart (label : String) (pos : ℚ) : List Segment × List Transition × ℚ :=
  match BEAT_LABELS label with
  | some text =>
    if text = "" then ([], [], pos)
    else
      ([{ kind := .card text none, start := round3 pos,
          stop := round3 (pos + INTERSTITIAL_DURATION) }],
       [{ type := "fade", at_ := round3 (pos + INTERSTITIAL_DURATION),
          dur := FADE_DURATION }],
       pos + INTERSTITIAL_DURATION)
  | none => ([], [], pos)

/-- The value `clip_out` for the pair `((labelA, start_t), (labelB, end_t))`:
`min(end_t, raw_duration)`, clamped to `start_t + max_clip` when the natural
duration exceeds `max_clip`. -/
def clipOut (raw_duration : ℚ) (p : (String × ℚ) × (String × ℚ)) : ℚ :=
  if min p.2.2 raw_duration - p.1.2 > MAX_CLIP then p.1.2 + MAX_CLIP
  else min p.2.2 raw_duration

/-- The value `clip_duration` for the pair: `clip_out - clip_in` after the clamp. -/
def clipDur (raw_duration : ℚ) (p : (String × ℚ) × (String × ℚ)) : ℚ :=
  if min p.2.2 raw_duration - p.1.2 > MAX_CLIP then MAX_CLIP
  else min p.2.2 raw_duration - p.1.2

/-- The clip segment the loop body emits for pair `p` at cursor `pos`. -/
def clipSegment (raw_duration : ℚ) (p : (String × ℚ) × (String × ℚ)) (pos : ℚ) : Segment :=
  { kind := .clip p.1.1 (round3 p.1.2) (round3 (clipOut raw_duration p))
      { scaleFrom := 1, scaleTo := 102/100 },
    start := round3 pos, stop := round3 (pos + clipDur raw_duration p) }

/-- One iteration of the scene loop of `build_edl`: given the pair
`((label, start_t), (_, end_t))` and the current `timeline_pos`, produce the
segments and transitions appended by this iteration and the new `timeline_pos`. -/
def sceneStep (raw_duration : ℚ) (p : (String × ℚ) × (String × ℚ)) (pos : ℚ) :
    List Segment × List Transition × ℚ :=
  let inter := interstitialPart p.1.1 pos
  (inter.1 ++ [clipSegment raw_duration p inter.2.2],
   inter.2.1 ++
     [{ type := "fade", at_ := round3 (inter.2.2 + clipDur raw_duration p),
        dur := FADE_DURATION }],
   inter.2.2 + clipDur raw_duration p)

/-- The scene loop of `build_edl`, threading `timeline_pos` through the
iterations and collecting appended segments and transitions. -/
def processScenes (raw_duration : ℚ) :
    List ((String × ℚ) × (String × ℚ)) → ℚ → List Segment × List Transition × ℚ
  | [], pos => ([], [], pos)
  | p :: rest, pos =>
    let a := sceneStep raw_duration p pos
    let r := processScenes raw_duration rest a.2.2
    (a.1 ++ r.1, a.2.1 ++ r.2.1, r.2.2)

/-- The intro card appended at `timeline_pos = 0`. -/
def introSegment : Segment :=
  { kind := .card "Token" (some "a minimal text editor"), start := round3 0,
    stop := round3 (0 + INTRO_DURATION) }

/-- The fade appended right after the intro card. -/
def introFade : Transition :=
  { type := "fade", at_ := round3 (0 + INTRO_DURATION), dur := FADE_DURATION }

/-- The outro card appended at the final cursor position `pos`. -/
def outroSegment (pos : ℚ) : Segment :=
  { kind := .card "token-editor.com" (some ""), start := round3 pos,
    stop := round3 (pos + OUTRO_DURATION) }

/-- The function `build_edl(beats, raw_duration)` from generate_edl.py. -/
def build_edl (beats : List Beat) (raw_duration : ℚ) : EDL :=
  let r := processScenes raw_duration (scenePairs beats) (0 + INTRO_DURATION)
  { fps := FPS, sizeW := 1920, sizeH := 1080,
    durationSec := round3 (r.2.2 + OUTRO_DURATION),
    inputsVideo := "recordings/raw.mp4",
    segments := introSegment :: r.1 ++ [outroSegment r.2.2],
    transitions := introFade :: r.2.1 }

-- --- Observation helpers ---

/-- The `(label, in, out)` data of a clip segment, `none` for cards. -/
def clipData (s : Segment) : Option (String × ℚ × ℚ) :=
  match s.kind with
  | .clip l i o _ => some (l, i, o)
  | .card _ _ => none

/-- All clips of a segment list, in order. -/
def clipsOf (segs : List Segment) : List (String × ℚ × ℚ) := segs.filterMap clipData

/-- The labels of the clip segments, in order. -/
def clipLabels (segs : List Segment) : List String := (clipsOf segs).map (fun c => c.1)

/-- The fade transition the builder emits right after a segment. -/
def fadeOf (s : Segment) : Transition := { type := "fade", at_ := s.stop, dur := FADE_DURATION }

/-- Contiguity witness relation: `chain pos segs pfin` holds when `segs` was laid
out by the cursor-threading builder starting at cursor `pos` and ending at
cursor `pfin`, each segment spanning `[round3 cursor, round3 (cursor + d))` for
the duration `d` used when placing it. -/
def chain : ℚ → List Segment → ℚ → Prop
  | pos, [], pfin => pfin = pos
  | pos, s :: rest, pfin =>
    ∃ d, s.start = round3 pos ∧ s.stop = round3 (pos + d) ∧ chain (pos + d) rest pfin

/-- All numeric timestamp fields of a segment are fixed points of `round3`. -/
def SegRounded (s : Segment) : Prop :=
  round3 s.start = s.start ∧ round3 s.stop = s.stop ∧
  match s.kind with
  | .clip _ i o _ => round3 i = i ∧ round3 o = o
  | .card _ _ => True

/-- The beats list of the end-to-end example. -/
def exampleBeats : List Beat := [⟨"open", 0⟩, ⟨"search", 6⟩, ⟨"end", 9⟩]
-- --- Arithmetic facts about round3 ---

lemma roundHalfEven_intCast (n : ℤ) : roundHalfEven (n : ℚ) = n := by
  unfold roundHalfEven
  rw [Int.floor_intCast]
  norm_num

lemma round3_intCast_div (n : ℤ) : round3 ((n : ℚ) / 1000) = (n : ℚ) / 1000 := by
  unfold round3
  rw [div_mul_cancel₀ _ (by norm_num : (1000:ℚ) ≠ 0), roundHalfEven_intCast]

/-- Idempotence of `round3`: a value already rounded to 3 decimals is unchanged. -/
lemma round3_idem (x : ℚ) : round3 (round3 x) = round3 x :=
  round3_intCast_div (roundHalfEven (x * 1000))

lemma round3_zero : round3 0 = 0 := by
  norm_num [round3, roundHalfEven]

lemma roundHalfEven_add_int_even (x : ℚ) (n : ℤ) (hn : n % 2 = 0) :
    roundHalfEven (x + (n : ℚ)) = roundHalfEven x + n := by
  unfold roundHalfEven
  rw [Int.floor_add_int]
  have h1 : x + (n : ℚ) - ((⌊x⌋ + n : ℤ) : ℚ) = x - ⌊x⌋ := by push_cast; ring
  rw [h1]
  have h2 : (⌊x⌋ + n) % 2 = ⌊x⌋ % 2 := by omega
  rw [h2]
  split_ifs <;> omega

/-- Rounding commutes with adding the max-clip length (an even number of
thousandths), so a clamped clip keeps exactly its 5-second span after rounding. -/
lemma round3_add_five (x : ℚ) : round3 (x + 5) = round3 x + 5 := by
  unfold round3
  have h : (x + 5) * 1000 = x * 1000 + ((5000 : ℤ) : ℚ) := by push_cast; ring
  rw [h, roundHalfEven_add_int_even _ 5000 (by norm_num)]
  push_cast
  ring

-- --- Cursor-chain lemmas ---

lemma chain_append {l1 l2 : List Segment} : ∀ {p q r : ℚ},
    chain p l1 q → chain q l2 r → chain p (l1 ++ l2) r := by
  induction l1 with
  | nil =>
    intro p q r h1 h2
    simp only [chain] at h1
    subst h1
    simpa using h2
  | cons s t ih =>
    intro p q r h1 h2
    obtain ⟨d, hs, he, hc⟩ := h1
    exact ⟨d, hs, he, ih hc h2⟩

lemma interstitialPart_chain (label : String) (pos : ℚ) :
    chain pos (interstitialPart label pos).1 (interstitialPart label pos).2.2 := by
  cases h : BEAT_LABELS label with
  | none => simp [interstitialPart, h, chain]
  | some text =>
    by_cases ht : text = ""
    · simp [interstitialPart, h, ht, chain]
    · simp only [interstitialPart, h, ht]
      exact ⟨INTERSTITIAL_DURATION, by simp [chain]⟩

lemma sceneStep_chain (raw_duration : ℚ) (p : (String × ℚ) × (String × ℚ)) (pos : ℚ) :
    chain pos (sceneStep raw_duration p pos).1 (sceneStep raw_duration p pos).2.2 := by
  refine chain_append (interstitialPart_chain p.1.1 pos) ?_
  exact ⟨clipDur raw_duration p, rfl, rfl, rfl⟩

lemma processScenes_chain (raw_duration : ℚ)
    (pairs : List ((String × ℚ) × (String × ℚ))) :
    ∀ pos, chain pos (processScenes raw_duration pairs pos).1
      (processScenes raw_duration pairs pos).2.2 := by
  induction pairs with
  | nil => intro pos; simp [processScenes, chain]
  | cons p rest ih =>
    intro pos
    simp only [processScenes]
    exact chain_append (sceneStep_chain raw_duration p pos) (ih _)

lemma build_edl_segments (beats : List Beat) (raw_duration : ℚ) :
    (build_edl beats raw_duration).segments =
      introSegment ::
        (processScenes raw_duration (scenePairs beats) (0 + INTRO_DURATION)).1 ++
        [outroSegment
          (processScenes raw_duration (scenePairs beats) (0 + INTRO_DURATION)).2.2] := rfl

lemma build_edl_transitions (beats : List Beat) (raw_duration : ℚ) :
    (build_edl beats raw_duration).transitions =
      introFade ::
        (processScenes raw_duration (scenePairs beats) (0 + INTRO_DURATION)).2.1 := rfl

lemma build_edl_durationSec (beats : List Beat) (raw_duration : ℚ) :
    (build_edl beats raw_duration).durationSec =
      round3 ((processScenes raw_duration (scenePairs beats) (0 + INTRO_DURATION)).2.2 +
        OUTRO_DURATION) := rfl

lemma build_edl_chain (beats : List Beat) (raw_duration : ℚ) :
    chain 0 ((build_edl beats raw_duration).segments)
      ((processScenes raw_duration (scenePairs beats) (0 + INTRO_DURATION)).2.2 +
        OUTRO_DURATION) := by
  rw [build_edl_segments]
  exact ⟨INTRO_DURATION, rfl, rfl,
    chain_append (processScenes_chain raw_duration (scenePairs beats) _)
      ⟨OUTRO_DURATION, rfl, rfl, rfl⟩⟩

lemma chain_get_start {l : List Segment} : ∀ {p q : ℚ}, chain p l q →
    ∀ i (h : i + 1 < l.length),
      (l.get ⟨i + 1, h⟩).start = (l.get ⟨i, Nat.lt_of_succ_lt h⟩).stop := by
  induction l with
  | nil => intro p q _ i h; simp at h
  | cons s rest ih =>
    intro p q hc i h
    obtain ⟨d, hs, he, hrest⟩ := hc
    cases i with
    | zero =>
      cases rest with
      | nil => simp at h
      | cons s2 r2 =>
        obtain ⟨d2, hs2, _, _⟩ := hrest
        simpa using hs2.trans he.symm
    | succ j =>
      have hj : j + 1 < rest.length := by simpa using h
      simpa using ih hrest j hj

lemma chain_head {l : List Segment} {p q : ℚ} (hc : chain p l q) (h : 0 < l.length) :
    (l.get ⟨0, h⟩).start = round3 p := by
  cases l with
  | nil => simp at h
  | cons s rest =>
    obtain ⟨d, hs, _, _⟩ := hc
    simpa using hs


-- --- Transitions pair up with segments ---

lemma interstitialPart_trans_eq (label : String) (pos : ℚ) :
    (interstitialPart label pos).2.1 = (interstitialPart label pos).1.map fadeOf := by
  cases h : BEAT_LABELS label with
  | none => simp [interstitialPart, h]
  | some text =>
    by_cases ht : text = "" <;> simp [interstitialPart, h, ht, fadeOf]

lemma sceneStep_trans_eq (raw_duration : ℚ) (p : (String × ℚ) × (String × ℚ)) (pos : ℚ) :
    (sceneStep raw_duration p pos).2.1 = (sceneStep raw_duration p pos).1.map fadeOf := by
  simp only [sceneStep, List.map_append]
  rw [← interstitialPart_trans_eq]
  simp [fadeOf, clipSegment]

lemma processScenes_trans_eq (raw_duration : ℚ)
    (pairs : List ((String × ℚ) × (String × ℚ))) :
    ∀ pos, (processScenes raw_duration pairs pos).2.1 =
      (processScenes raw_duration pairs pos).1.map fadeOf := by
  induction pairs with
  | nil => intro pos; simp [processScenes]
  | cons p rest ih =>
    intro pos
    simp only [processScenes, List.map_append]
    rw [sceneStep_trans_eq, ih]

lemma build_edl_trans_eq (beats : List Beat) (raw_duration : ℚ) :
    (build_edl beats raw_duration).transitions =
      ((build_edl beats raw_duration).segments).dropLast.map fadeOf := by
  rw [build_edl_transitions, build_edl_segments, processScenes_trans_eq]
  rw [show introSegment ::
        (processScenes raw_duration (scenePairs beats) (0 + INTRO_DURATION)).1 ++
        [outroSegment
          (processScenes raw_duration (scenePairs beats) (0 + INTRO_DURATION)).2.2]
      = (introSegment ::
          (processScenes raw_duration (scenePairs beats) (0 + INTRO_DURATION)).1) ++
        [outroSegment
          (processScenes raw_duration (scenePairs beats) (0 + INTRO_DURATION)).2.2]
      from rfl]
  rw [List.dropLast_concat]
  rfl

-- --- Every emitted field is round3-rounded ---

lemma interstitialPart_rounded (label : String) (pos : ℚ) :
    ∀ s ∈ (interstitialPart label pos).1, SegRounded s := by
  cases h : BEAT_LABELS label with
  | none => simp [interstitialPart, h]
  | some text =>
    by_cases ht : text = "" <;>
      simp [interstitialPart, h, ht, SegRounded, round3_idem]

lemma sceneStep_rounded (raw_duration : ℚ) (p : (String × ℚ) × (String × ℚ)) (pos : ℚ) :
    ∀ s ∈ (sceneStep raw_duration p pos).1, SegRounded s := by
  intro s hs
  simp only [sceneStep, List.mem_append, List.mem_singleton] at hs
  rcases hs with hs | rfl
  · exact interstitialPart_rounded _ _ s hs
  · simp [SegRounded, clipSegment, round3_idem]

lemma processScenes_rounded (raw_duration : ℚ)
    (pairs : List ((String × ℚ) × (String × ℚ))) :
    ∀ pos s, s ∈ (processScenes raw_duration pairs pos).1 → SegRounded s := by
  induction pairs with
  | nil => intro pos s hs; simp [processScenes] at hs
  | cons p rest ih =>
    intro pos s hs
    simp only [processScenes, List.mem_append] at hs
    rcases hs with hs | hs
    · exact sceneStep_rounded raw_duration p pos s hs
    · exact ih _ s hs

-- --- The clips of the output ---

lemma clipsOf_append (l1 l2 : List Segment) :
    clipsOf (l1 ++ l2) = clipsOf l1 ++ clipsOf l2 := by
  simp [clipsOf]

lemma interstitialPart_clips (label : String) (pos : ℚ) :
    clipsOf (interstitialPart label pos).1 = [] := by
  cases h : BEAT_LABELS label with
  | none => simp [interstitialPart, h, clipsOf]
  | some text =>
    by_cases ht : text = "" <;> simp [interstitialPart, h, ht, clipsOf, clipData]

lemma sceneStep_clips (raw_duration : ℚ) (p : (String × ℚ) × (String × ℚ)) (pos : ℚ) :
    clipsOf (sceneStep raw_duration p pos).1 =
      [(p.1.1, round3 p.1.2, round3 (clipOut raw_duration p))] := by
  rw [show (sceneStep raw_duration p pos).1
      = (interstitialPart p.1.1 pos).1 ++
        [clipSegment raw_duration p (interstitialPart p.1.1 pos).2.2] from rfl]
  rw [clipsOf_append, interstitialPart_clips]
  simp [clipsOf, clipData, clipSegment]

lemma processScenes_clips (raw_duration : ℚ)
    (pairs : List ((String × ℚ) × (String × ℚ))) :
    ∀ pos, clipsOf (processScenes raw_duration pairs pos).1 =
      pairs.map (fun p => (p.1.1, round3 p.1.2, round3 (clipOut raw_duration p))) := by
  induction pairs with
  | nil => intro pos; simp [processScenes, clipsOf]
  | cons p rest ih =>
    intro pos
    rw [show (processScenes raw_duration (p :: rest) pos).1
        = (sceneStep raw_duration p pos).1 ++
          (processScenes raw_duration rest (sceneStep raw_duration p pos).2.2).1 from rfl]
    rw [clipsOf_append, sceneStep_clips, ih]
    simp

lemma build_edl_clips (beats : List Beat) (raw_duration : ℚ) :
    clipsOf ((build_edl beats raw_duration).segments) =
      (scenePairs beats).map
        (fun p => (p.1.1, round3 p.1.2, round3 (clipOut raw_duration p))) := by
  rw [build_edl_segments]
  rw [show (introSegment ::
        (processScenes raw_duration (scenePairs beats) (0 + INTRO_DURATION)).1 ++
        [outroSegment
          (processScenes raw_duration (scenePairs beats) (0 + INTRO_DURATION)).2.2] :
          List Segment)
      = [introSegment] ++
        (processScenes raw_duration (scenePairs beats) (0 + INTRO_DURATION)).1 ++
        [outroSegment
          (processScenes raw_duration (scenePairs beats) (0 + INTRO_DURATION)).2.2]
      from rfl]
  rw [clipsOf_append, clipsOf_append, processScenes_clips]
  simp [clipsOf, clipData, introSegment, outroSegment]

-- --- The boundary list actually used ---

lemma filterMap_pair_map_fst (L : List String) (f : String → Option ℚ) :
    (L.filterMap (fun label => (f label).map (fun t => (label, t)))).map Prod.fst
      = L.filter (fun l => (f l).isSome) := by
  induction L with
  | nil => simp
  | cons a L ih =>
    cases h : f a <;> simp [h, ih]

lemma sceneTimes_map_fst (beats : List Beat) :
    (sceneTimes beats).map Prod.fst =
      SCENE_BEATS.filter (fun l => (beatMap beats l).isSome) :=
  filterMap_pair_map_fst SCENE_BEATS (beatMap beats)

lemma beatMap_isSome (beats : List Beat) (l : String) :
    (beatMap beats l).isSome = decide (l ∈ beats.map Beat.label) := by
  unfold beatMap
  suffices h : ∀ m : String → Option ℚ,
      ((beats.foldl (fun m b => fun l => if l = b.label then some b.t else m l) m) l).isSome
        = ((m l).isSome || decide (l ∈ beats.map Beat.label)) by
    simpa using h (fun _ => none)
  induction beats with
  | nil => intro m; simp
  | cons b bs ih =>
    intro m
    simp only [List.foldl_cons, List.map_cons, List.mem_cons]
    rw [ih]
    by_cases hl : l = b.label <;> simp [hl]

lemma zip_tail_map_fst {α : Type} (l : List α) :
    (l.zip l.tail).map Prod.fst = l.dropLast := by
  induction l with
  | nil => simp
  | cons a l ih =>
    cases l with
    | nil => simp
    | cons b t =>
      simp only [List.tail_cons, List.zip_cons_cons, List.map_cons] at ih ⊢
      rw [ih]
      rfl

lemma zip_tail_map_fst_fst {α β : Type} (l : List (α × β)) :
    (l.zip l.tail).map (fun p => p.1.1) = (l.map Prod.fst).dropLast := by
  have h : (l.zip l.tail).map (fun p => p.1.1)
      = ((l.zip l.tail).map Prod.fst).map Prod.fst := by
    rw [List.map_map]; rfl
  rw [h, zip_tail_map_fst, List.map_dropLast]

lemma build_edl_clipLabels (beats : List Beat) (raw_duration : ℚ) :
    clipLabels ((build_edl beats raw_duration).segments) =
      (SCENE_BEATS.filter (fun l => (beatMap beats l).isSome)).dropLast := by
  unfold clipLabels
  rw [build_edl_clips, List.map_map]
  show (scenePairs beats).map (fun p => p.1.1) = _
  unfold scenePairs
  rw [zip_tail_map_fst_fst, sceneTimes_map_fst]

lemma getElem?_dropLast {α : Type} (l : List α) (i : ℕ) {x : α}
    (h : (l.dropLast)[i]? = some x) : l[i]? = some x := by
  have hi : i < l.dropLast.length := by
    by_contra hge
    rw [List.getElem?_eq_none (Nat.le_of_not_lt hge)] at h
    cases h
  have hl : i < l.length := lt_of_lt_of_le hi (by rw [List.length_dropLast]; omega)
  rw [List.getElem?_eq_getElem hi] at h
  rw [List.getElem?_eq_getElem hl, ← List.getElem_dropLast l i hi]
  exact h

/-- Each transition of the output is the fade belonging to the segment at the
same index: transition `i` was emitted right after segment `i`. -/
lemma build_edl_pair (beats : List Beat) (raw_duration : ℚ) :
    ∀ (i : ℕ) (t : Transition) (s : Segment),
      ((build_edl beats raw_duration).transitions)[i]? = some t →
      ((build_edl beats raw_duration).segments)[i]? = some s → t = fadeOf s := by
  intro i t s ht hs
  rw [build_edl_trans_eq, List.getElem?_map] at ht
  cases hd : ((build_edl beats raw_duration).segments).dropLast[i]? with
  | none => rw [hd] at ht; cases ht
  | some s2 =>
    rw [hd] at ht
    have hs2 := getElem?_dropLast _ _ hd
    rw [hs2] at hs
    cases hs
    simpa using ht.symm

lemma build_edl_segments_length_pos (beats : List Beat) (raw_duration : ℚ) :
    0 < ((build_edl beats raw_duration).segments).length := by
  rw [build_edl_segments]
  simp

lemma build_edl_trans_length (beats : List Beat) (raw_duration : ℚ) :
    ((build_edl beats raw_duration).transitions).length + 1
      = ((build_edl beats raw_duration).segments).length := by
  rw [build_edl_trans_eq, List.length_map, List.length_dropLast]
  have := build_edl_segments_length_pos beats raw_duration
  omega

-- ===================== Claim theorems =====================

/-- C1: for every beats list and raw footage duration, the segment sequence
returned by `build_edl` is contiguous: the first segment starts at 0 and every
later segment starts exactly where its predecessor ends (no gaps, no overlaps). -/
theorem segments_contiguous (beats : List Beat) (raw_duration : ℚ) :
    (((build_edl beats raw_duration).segments).map Segment.start).head? = some 0 ∧
    ∀ i (h : i + 1 < ((build_edl beats raw_duration).segments).length),
      (((build_edl beats raw_duration).segments).get ⟨i + 1, h⟩).start
        = (((build_edl beats raw_duration).segments).get
            ⟨i, Nat.lt_of_succ_lt h⟩).stop := by
  constructor
  · rw [build_edl_segments]
    simp [introSegment, round3_zero]
  · intro i h
    exact chain_get_start (build_edl_chain beats raw_duration) i h

/-- Witness for C1 at the end-to-end example input, index 0. -/
theorem segments_contiguous_witness :
    (((build_edl exampleBeats 9).segments).map Segment.start).head? = some 0 ∧
    (((build_edl exampleBeats 9).segments).get ⟨0 + 1, by decide⟩).start
      = (((build_edl exampleBeats 9).segments).get ⟨0, by decide⟩).stop :=
  ⟨(segments_contiguous exampleBeats 9).1,
   (segments_contiguous exampleBeats 9).2 0 (by decide)⟩

/-- C2: the `durationSec` of the EDL equals the `end` of the last segment. -/
theorem total_duration_eq_last_stop (beats : List Beat) (raw_duration : ℚ) :
    (((build_edl beats raw_duration).segments).map Segment.stop).getLast?
      = some ((build_edl beats raw_duration).durationSec) := by
  rw [build_edl_segments, build_edl_durationSec]
  rw [show (introSegment ::
        (processScenes raw_duration (scenePairs beats) (0 + INTRO_DURATION)).1 ++
        [outroSegment
          (processScenes raw_duration (scenePairs beats) (0 + INTRO_DURATION)).2.2] :
          List Segment)
      = (introSegment ::
          (processScenes raw_duration (scenePairs beats) (0 + INTRO_DURATION)).1) ++
        [outroSegment
          (processScenes raw_duration (scenePairs beats) (0 + INTRO_DURATION)).2.2]
      from rfl]
  rw [List.map_append, List.map_singleton, List.getLast?_concat]
  rfl

/-- C3: for every transition, the `at` field equals the `end` of the segment that immediately
precedes it in construction order (transition `i` follows segment `i`), and no
transition is emitted after the final outro segment (there are strictly fewer
transitions than segments). -/
theorem transition_anchoring (beats : List Beat) (raw_duration : ℚ) :
    ((build_edl beats raw_duration).transitions).length
        < ((build_edl beats raw_duration).segments).length ∧
    ∀ (i : ℕ) (t : Transition) (s : Segment),
      ((build_edl beats raw_duration).transitions)[i]? = some t →
      ((build_edl beats raw_duration).segments)[i]? = some s →
      t.at_ = s.stop := by
  constructor
  · have := build_edl_trans_length beats raw_duration
    omega
  · intro i t s ht hs
    rw [build_edl_pair beats raw_duration i t s ht hs]
    rfl

/-- Witness for C3 at the end-to-end example input, index 0. -/
theorem transition_anchoring_witness :
    ((build_edl exampleBeats 9).transitions).length
        < ((build_edl exampleBeats 9).segments).length ∧
    introFade.at_ = introSegment.stop :=
  ⟨(transition_anchoring exampleBeats 9).1,
   (transition_anchoring exampleBeats 9).2 0 introFade introSegment rfl rfl⟩

/-- C9: the output has exactly one transition per non-final segment — the number
of transitions is the number of segments minus one, and transition `i` is a fade
anchored at the end of segment `i`. -/
theorem one_fade_per_segment (beats : List Beat) (raw_duration : ℚ) :
    ((build_edl beats raw_duration).transitions).length + 1
        = ((build_edl beats raw_duration).segments).length ∧
    ∀ (i : ℕ) (t : Transition) (s : Segment),
      ((build_edl beats raw_duration).transitions)[i]? = some t →
      ((build_edl beats raw_duration).segments)[i]? = some s →
      t.type = "fade" ∧ t.dur = FADE_DURATION ∧ t.at_ = s.stop := by
  constructor
  · exact build_edl_trans_length beats raw_duration
  · intro i t s ht hs
    rw [build_edl_pair beats raw_duration i t s ht hs]
    exact ⟨rfl, rfl, rfl⟩

/-- Witness for C9 at the end-to-end example input, index 0. -/
theorem one_fade_per_segment_witness :
    ((build_edl exampleBeats 9).transitions).length + 1
        = ((build_edl exampleBeats 9).segments).length ∧
    introFade.type = "fade" ∧ introFade.dur = FADE_DURATION ∧
      introFade.at_ = introSegment.stop :=
  ⟨(one_fade_per_segment exampleBeats 9).1,
   (one_fade_per_segment exampleBeats 9).2 0 introFade introSegment rfl rfl⟩

/-- C10: every numeric timestamp field in the returned EDL — the `start`/`end`
of each segment, the clip `in`/`out`, the `at` of each transition, `durationSec` —
is already rounded to 3 decimal places inside the builder itself (each is a
fixed point of `round3`), before any serialization step. -/
theorem fields_rounded (beats : List Beat) (raw_duration : ℚ) :
    (∀ s ∈ (build_edl beats raw_duration).segments, SegRounded s) ∧
    (∀ t ∈ (build_edl beats raw_duration).transitions, round3 t.at_ = t.at_) ∧
    round3 ((build_edl beats raw_duration).durationSec)
      = (build_edl beats raw_duration).durationSec := by
  have hseg : ∀ s ∈ (build_edl beats raw_duration).segments, SegRounded s := by
    intro s hs
    rw [build_edl_segments] at hs
    simp only [List.cons_append, List.mem_cons, List.mem_append,
      List.mem_singleton] at hs
    rcases hs with rfl | hs | rfl | h0
    · exact ⟨round3_idem _, round3_idem _, trivial⟩
    · exact processScenes_rounded _ _ _ s hs
    · exact ⟨round3_idem _, round3_idem _, trivial⟩
    · cases h0
  refine ⟨hseg, ?_, ?_⟩
  · intro t ht
    rw [build_edl_trans_eq] at ht
    simp only [List.mem_map] at ht
    obtain ⟨s, hs, rfl⟩ := ht
    exact (hseg s (List.dropLast_subset _ hs)).2.1
  · rw [build_edl_durationSec]
    exact round3_idem _

/-- Witness for C10: the intro card, its fade, and the total duration of a
concrete build are all round3-fixed. -/
theorem fields_rounded_witness :
    SegRounded introSegment ∧
    round3 introFade.at_ = introFade.at_ ∧
    round3 ((build_edl [] 25).durationSec) = (build_edl [] 25).durationSec :=
  ⟨(fields_rounded [] 25).1 introSegment (List.mem_cons_self _ _),
   (fields_rounded [] 25).2.1 introFade (List.mem_cons_self _ _),
   (fields_rounded [] 25).2.2⟩

/-- C6: the clip segments appear in the order their labels occur in the
configured `SCENE_BEATS` list restricted to labels present in the beat mapping
(all but the last such label yield a clip), independently of the order of the
input beat events. -/
theorem clip_order_configured (beats : List Beat) (raw_duration : ℚ) :
    clipLabels ((build_edl beats raw_duration).segments)
      = (SCENE_BEATS.filter
          (fun l => decide (l ∈ beats.map Beat.label))).dropLast ∧
    ∀ (beats2 : List Beat) (raw2 : ℚ), beats2.Perm beats →
      clipLabels ((build_edl beats2 raw2).segments)
        = clipLabels ((build_edl beats raw_duration).segments) := by
  have key : ∀ (bs : List Beat) (rd : ℚ),
      clipLabels ((build_edl bs rd).segments)
        = (SCENE_BEATS.filter
            (fun l => decide (l ∈ bs.map Beat.label))).dropLast := by
    intro bs rd
    rw [build_edl_clipLabels]
    congr 1
    exact List.filter_congr (fun l _ => beatMap_isSome bs l)
  refine ⟨key beats raw_duration, ?_⟩
  intro beats2 raw2 hp
  rw [key beats2 raw2, key beats raw_duration]
  congr 1
  apply List.filter_congr
  intro l _
  exact decide_eq_decide.mpr (hp.map Beat.label).mem_iff

/-- A permutation of the example beats, used as the C6 witness input. -/
def exampleBeatsPerm : List Beat := [⟨"search", 6⟩, ⟨"end", 9⟩, ⟨"open", 0⟩]

/-- Witness for C6: on the example input, the clip labels are the configured
order restricted to present labels (minus the last), and permuting the beat
events (with a different raw duration) leaves the clip label order unchanged. -/
theorem clip_order_configured_witness :
    clipLabels ((build_edl exampleBeats 9).segments)
      = (SCENE_BEATS.filter
          (fun l => decide (l ∈ exampleBeats.map Beat.label))).dropLast ∧
    clipLabels ((build_edl exampleBeatsPerm 7).segments)
      = clipLabels ((build_edl exampleBeats 9).segments) :=
  ⟨(clip_order_configured exampleBeats 9).1,
   (clip_order_configured exampleBeats 9).2 exampleBeatsPerm 7 (by decide)⟩

/-- C7: when fewer than two configured boundary labels are present among the
beats (in particular for the empty beats list), `build_edl` still succeeds and
returns exactly the intro card followed by the outro card — no clip segments
and no interstitial cards. -/
theorem few_boundaries_intro_outro (beats : List Beat) (raw_duration : ℚ)
    (h : (SCENE_BEATS.filter
        (fun l => decide (l ∈ beats.map Beat.label))).length < 2) :
    (build_edl beats raw_duration).segments
      = [introSegment, outroSegment (0 + INTRO_DURATION)] := by
  have hst : (sceneTimes beats).length < 2 := by
    have hm : (sceneTimes beats).length
        = (SCENE_BEATS.filter (fun l => (beatMap beats l).isSome)).length := by
      rw [← sceneTimes_map_fst, List.length_map]
    rw [hm, List.filter_congr (fun l _ => beatMap_isSome beats l)]
    exact h
  have hp : scenePairs beats = [] := by
    unfold scenePairs
    rcases hl : sceneTimes beats with _ | ⟨a, rest⟩
    · rfl
    · rcases rest with _ | ⟨b, t⟩
      · rfl
      · rw [hl] at hst
        simp only [List.length_cons] at hst
        omega
  rw [build_edl_segments, hp]
  rfl

/-- Witness for C7 at the empty beats list. -/
theorem few_boundaries_intro_outro_witness :
    (SCENE_BEATS.filter
        (fun l => decide (l ∈ ([] : List Beat).map Beat.label))).length < 2 ∧
    (build_edl [] 25).segments = [introSegment, outroSegment (0 + INTRO_DURATION)] :=
  ⟨by decide, few_boundaries_intro_outro [] 25 (by decide)⟩

/-- C4 (amended): for every consecutive pair of used scene boundaries
(labelA at tA, labelB at tB), the source points of the emitted clip are the
3-decimal-rounded values of the computed points: `in = round3 tA`; when
`min(tB, raw) - tA` exceeds the maximum clip length, `out = round3 (tA + max)`
and the emitted `out - in` equals exactly the maximum; otherwise
`out = round3 (min tB raw)`. -/
theorem clip_source_points (beats : List Beat) (raw_duration : ℚ) (i : ℕ)
    (labA labB lab : String) (tA tB cin cout : ℚ)
    (hA : (sceneTimes beats)[i]? = some (labA, tA))
    (hB : (sceneTimes beats)[i+1]? = some (labB, tB))
    (hC : (clipsOf ((build_edl beats raw_duration).segments))[i]?
      = some (lab, cin, cout)) :
    cin = round3 tA ∧
    (min tB raw_duration - tA > MAX_CLIP →
      cout = round3 (tA + MAX_CLIP) ∧ cout - cin = MAX_CLIP) ∧
    (¬ min tB raw_duration - tA > MAX_CLIP →
      cout = round3 (min tB raw_duration)) := by
  rw [build_edl_clips, List.getElem?_map] at hC
  cases hp : (scenePairs beats)[i]? with
  | none => rw [hp] at hC; cases hC
  | some p =>
    obtain ⟨pA, pB⟩ := p
    rw [hp] at hC
    unfold scenePairs at hp
    rw [List.getElem?_zip_eq_some] at hp
    obtain ⟨hp1, hp2⟩ := hp
    rw [List.getElem?_tail] at hp2
    have e1 : some pA = some (labA, tA) := hp1.symm.trans hA
    have e2 : some pB = some (labB, tB) := hp2.symm.trans hB
    injection e1 with e1
    injection e2 with e2
    subst e1
    subst e2
    simp only [Option.map_some'] at hC
    injection hC with hC
    rw [Prod.mk.injEq, Prod.mk.injEq] at hC
    obtain ⟨-, hin, hout⟩ := hC
    refine ⟨hin.symm, ?_, ?_⟩
    · intro hgt
      have ho : clipOut raw_duration ((labA, tA), (labB, tB)) = tA + MAX_CLIP := by
        unfold clipOut
        exact if_pos hgt
      constructor
      · rw [← hout, ho]
      · rw [← hout, ← hin, ho]
        show round3 (tA + MAX_CLIP) - round3 tA = MAX_CLIP
        simp only [MAX_CLIP]
        rw [round3_add_five]
        ring
    · intro hle
      have ho : clipOut raw_duration ((labA, tA), (labB, tB))
          = min tB raw_duration := by
        unfold clipOut
        exact if_neg hle
      rw [← hout, ho]

/-- Witness for C4 (amended) at the end-to-end example input, pair
(open at 0, search at 6): the clamped branch applies. -/
theorem clip_source_points_witness :
    round3 (0:ℚ) = round3 0 ∧
    (min (6:ℚ) 9 - 0 > MAX_CLIP →
      round3 (clipOut 9 (("open", (0:ℚ)), ("search", 6))) = round3 (0 + MAX_CLIP) ∧
      round3 (clipOut 9 (("open", (0:ℚ)), ("search", 6))) - round3 0 = MAX_CLIP) ∧
    (¬ min (6:ℚ) 9 - 0 > MAX_CLIP →
      round3 (clipOut 9 (("open", (0:ℚ)), ("search", 6))) = round3 (min 6 9)) :=
  clip_source_points exampleBeats 9 0 "open" "search" "open" 0 6 (round3 0)
    (round3 (clipOut 9 (("open", 0), ("search", 6)))) rfl rfl rfl

/-- C4 as literally stated is false: with boundary `open` at tA = 1/2500
(0.0004 s), the `in` of the emitted clip is 0, not tA (and `out` is 5, not
tA + 5) — the builder emits the points rounded to 3 decimals. -/
theorem clip_source_points_counterexample :
    (clipsOf ((build_edl [⟨"open", 1/2500⟩, ⟨"end", 9⟩] 9).segments))[0]?
      = some ("open", 0, 5) ∧
    (sceneTimes [⟨"open", 1/2500⟩, ⟨"end", 9⟩])[0]? = some ("open", 1/2500) ∧
    ¬ ((0 : ℚ) = 1/2500) := by
  refine ⟨?_, rfl, by norm_num⟩
  rw [build_edl_clips]
  rw [show scenePairs [⟨"open", 1/2500⟩, ⟨"end", 9⟩]
      = [((("open" : String), (1/2500 : ℚ)), (("end" : String), (9 : ℚ)))] from rfl]
  simp [clipOut, MAX_CLIP, min_def]
  norm_num [round3, roundHalfEven]

/-- C5 fails on the code (matching the defect note of the spec itself): with raw footage
duration 0 and boundaries open at 5, end at 9, the builder emits a clip segment
whose end (-3.8) lies before its start (1.2) — a negative-length segment. -/
theorem negative_clip_emitted :
    ((build_edl [⟨"open", 5⟩, ⟨"end", 9⟩] 0).segments)[1]?
      = some { kind := .clip "open" 5 0 { scaleFrom := 1, scaleTo := 102/100 },
               start := 6/5, stop := -19/5 } ∧
    (-19/5 : ℚ) < 6/5 := by
  constructor
  · rw [build_edl_segments]
    rw [show scenePairs [⟨"open", 5⟩, ⟨"end", 9⟩]
        = [((("open" : String), (5 : ℚ)), (("end" : String), (9 : ℚ)))] from rfl]
    simp [processScenes, sceneStep, interstitialPart, BEAT_LABELS, clipSegment]
    norm_num [clipOut, clipDur, MAX_CLIP, min_def, round3, roundHalfEven,
      INTRO_DURATION]
  · norm_num

/-- C8: on beats open at 0, search at 6, end at 9 with raw duration 9 and the
source configuration, `build_edl` returns: intro card [0, 1.2), clip `open`
(in 0, out 5) at [1.2, 6.2), interstitial card "search" at [6.2, 6.9), clip
`search` (in 6, out 9) at [6.9, 9.9), outro card [9.9, 11.4), with
durationSec 11.4. -/
theorem end_to_end_example :
    (build_edl exampleBeats 9).segments =
      [ { kind := .card "Token" (some "a minimal text editor"), start := 0, stop := 6/5 },
        { kind := .clip "open" 0 5 { scaleFrom := 1, scaleTo := 102/100 },
          start := 6/5, stop := 31/5 },
        { kind := .card "search" none, start := 31/5, stop := 69/10 },
        { kind := .clip "search" 6 9 { scaleFrom := 1, scaleTo := 102/100 },
          start := 69/10, stop := 99/10 },
        { kind := .card "token-editor.com" (some ""), start := 99/10, stop := 57/5 } ] ∧
    (build_edl exampleBeats 9).durationSec = 57/5 := by
  have hp : scenePairs exampleBeats =
      [(("open", 0), ("search", 6)), (("search", 6), ("end", 9))] := rfl
  simp [build_edl, hp, processScenes, sceneStep, interstitialPart, BEAT_LABELS,
    clipSegment, clipOut, clipDur, introSegment, outroSegment]
  norm_num [round3, roundHalfEven, INTRO_DURATION, INTERSTITIAL_DURATION,
    OUTRO_DURATION, FADE_DURATION, MAX_CLIP, min_def]

end TokenEDL
